import Mathlib

/-!
Verification development for the baby-tracker heatmap core
(`src/js/parser.js`).

Embedding conventions:
* A wall-clock timestamp is modelled as a `Timestamp`: a linear calendar-day
  index (`day : Int`, standing for the `YYYY-MM-DD` date key produced by
  `getDateString`) together with the minute of day (`minute : Nat`, the value
  `getHours() * 60 + getMinutes()` produced by `timeToMinutes`).  Calendar
  arithmetic such as `setDate(getDate() - 30)` becomes subtraction on the
  day index; the numeric order of `getTime()` instants becomes the
  lexicographic order on `(day, minute)`.
* JavaScript arrays of 1440 `Set`s that are mutated in place become functions
  `Nat → Finset Int` updated pointwise over the loop's index range; the sets
  of `YYYY-MM-DD` date keys become `Finset Int` over the day index.
* JavaScript floating-point intensities become exact rationals `ℚ`; the
  values produced by the code are quotients `|day-set| / D` clamped with
  `Math.min`, and the segmenter compares them against the tolerance `0.02`.
* The JavaScript remainder operator `%` (truncated toward zero) is `Int.tmod`.
-/

set_option maxRecDepth 16384

/-- Number of minutes in a day (`MINUTES_PER_DAY` in the source). -/
def MINUTES_PER_DAY : Nat := 1440

/-- A wall-clock timestamp: linear day index plus minute of day. -/
structure Timestamp where
  day : Int
  minute : Nat
deriving DecidableEq

/-- Embeds `timeToMinutes(date) = date.getHours() * 60 + date.getMinutes()`:
the minute-of-day component of the timestamp. -/
def timeToMinutes (t : Timestamp) : Nat := t.minute

/-- Embeds `getDateString(date)` (the `YYYY-MM-DD` date key): the day-index
component of the timestamp, used only as a set-membership key. -/
def getDateString (t : Timestamp) : Int := t.day

/-- Numeric `<` on `getTime()` instants: lexicographic on (day, minute). -/
def Timestamp.lt (a b : Timestamp) : Bool :=
  a.day < b.day || (a.day == b.day && a.minute < b.minute)

/-- Numeric `<=` on `getTime()` instants: lexicographic on (day, minute). -/
def Timestamp.le (a b : Timestamp) : Bool :=
  a.day < b.day || (a.day == b.day && a.minute ≤ b.minute)

/-- A duration-based activity record (sleep, nursing, pumping): start
timestamp and a duration in whole minutes. -/
structure DurationActivity where
  start : Timestamp
  durationMinutes : Nat
deriving DecidableEq

/-- An instant activity record (bottle, diaper): a single occurrence time. -/
structure InstantActivity where
  time : Timestamp
deriving DecidableEq

/-- Embeds `markMinuteRange(minuteDays, startMinute, durationMinutes, dateStr)`:
if the activity does not cross midnight, add the date key to every slot in
`[startMinute, endMinute)`; otherwise add it to `[startMinute, 1440)` and to
`[0, endMinute % 1440)`.  The two in-place marking loops become a pointwise
update over their index ranges. -/
def markMinuteRange (minuteDays : Nat → Finset Int) (startMinute durationMinutes : Nat)
    (dateStr : Int) : Nat → Finset Int :=
  fun m =>
    let endMinute := startMinute + durationMinutes
    if endMinute ≤ MINUTES_PER_DAY then
      if startMinute ≤ m ∧ m < endMinute then insert dateStr (minuteDays m) else minuteDays m
    else
      if (startMinute ≤ m ∧ m < MINUTES_PER_DAY) ∨ m < endMinute % MINUTES_PER_DAY then
        insert dateStr (minuteDays m)
      else minuteDays m

/-- The accumulator built by `calculateDurationHeatmap` / `calculateInstantHeatmap`:
per-minute day sets, the set of unique days, and the record count. -/
structure HeatmapAccum where
  minuteDays : Nat → Finset Int
  uniqueDays : Finset Int
  totalCount : Nat

/-- The loop body of `calculateDurationHeatmap`: record the start date in the
unique-day set and mark the record's minute range. -/
def durationStep (acc : HeatmapAccum) (activity : DurationActivity) : HeatmapAccum :=
  { minuteDays := markMinuteRange acc.minuteDays (timeToMinutes activity.start)
      activity.durationMinutes (getDateString activity.start)
    uniqueDays := insert (getDateString activity.start) acc.uniqueDays
    totalCount := acc.totalCount + 1 }

/-- Embeds `calculateDurationHeatmap(activities)`: fold over the records,
marking each record's minute range with its date key and collecting the
unique start dates. -/
def calculateDurationHeatmap (activities : List DurationActivity) : HeatmapAccum :=
  activities.foldl durationStep ⟨fun _ => ∅, ∅, 0⟩

/-- The fixed half-window (`HALF_WINDOW = 7`) around an instant event. -/
def HALF_WINDOW : Int := 7

/-- Embeds `((m % MINUTES_PER_DAY) + MINUTES_PER_DAY) % MINUTES_PER_DAY` with
JavaScript `%` (truncated remainder, `Int.tmod`). -/
def normalizeMinute (x : Int) : Int :=
  ((x.tmod (MINUTES_PER_DAY : Int)) + (MINUTES_PER_DAY : Int)).tmod (MINUTES_PER_DAY : Int)

/-- The list of normalized slots touched by the instant-event marking loop
`for (let m = minute - HALF_WINDOW; m <= minute + HALF_WINDOW; m++)`. -/
def instantWindow (minute : Nat) : List Int :=
  (List.range 15).map (fun (i : Nat) => normalizeMinute ((minute : Int) - HALF_WINDOW + (i : Int)))

/-- Pointwise effect of the instant-event marking loop on the day-set array. -/
def markInstantWindow (minuteDays : Nat → Finset Int) (minute : Nat) (dateStr : Int) :
    Nat → Finset Int :=
  fun m => if (m : Int) ∈ instantWindow minute then insert dateStr (minuteDays m) else minuteDays m

/-- The loop body of `calculateInstantHeatmap`: record the event date in the
unique-day set and mark the 15-minute window centred on the event. -/
def instantStep (acc : HeatmapAccum) (activity : InstantActivity) : HeatmapAccum :=
  { minuteDays := markInstantWindow acc.minuteDays (timeToMinutes activity.time)
      (getDateString activity.time)
    uniqueDays := insert (getDateString activity.time) acc.uniqueDays
    totalCount := acc.totalCount + 1 }

/-- Embeds `calculateInstantHeatmap(activities)`: fold over the records,
marking the 15-minute window centred on each event. -/
def calculateInstantHeatmap (activities : List InstantActivity) : HeatmapAccum :=
  activities.foldl instantStep ⟨fun _ => ∅, ∅, 0⟩

/-- The closed set of activity kinds. -/
inductive Kind
  | sleep
  | nursing
  | pumping
  | bottle
  | diaper
deriving DecidableEq

/-- The mapping from kind name to record list that `calculateAllHeatmaps`
consumes (`allActivities`). -/
structure AllActivities where
  sleep : List DurationActivity
  nursing : List DurationActivity
  pumping : List DurationActivity
  bottle : List InstantActivity
  diaper : List InstantActivity

/-- One kind's entry in the `heatmaps` output object, after intensities are
attached. -/
structure KindEntry where
  minuteDays : Nat → Finset Int
  uniqueDays : Finset Int
  totalCount : Nat
  intensities : List ℚ

/-- Embeds `Math.min` on two numbers. -/
def mathMin (a b : ℚ) : ℚ := if a ≤ b then a else b

/-- Embeds `Math.abs` of a number. -/
def mathAbs (x : ℚ) : ℚ := if x < 0 then -x else x

/-- Embeds `data.intensities = data.minuteDays.map(days => totalDays > 0 ?
Math.min(1, days.size / totalDays) : 0)`. -/
def mkIntensities (minuteDays : Nat → Finset Int) (totalDays : Nat) : List ℚ :=
  (List.range MINUTES_PER_DAY).map (fun m =>
    if 0 < totalDays then mathMin 1 (((minuteDays m).card : ℚ) / (totalDays : ℚ)) else 0)

/-- Accumulating `result.uniqueDays.forEach(d => allUniqueDays.add(d))` for a
kind that may be absent from `heatmaps`. -/
def unionDays (s : Finset Int) : Option HeatmapAccum → Finset Int
  | some r => s ∪ r.uniqueDays
  | none => s

/-- Embeds `getDateRange(dateStrings)`: `null` for an empty set, otherwise the
earliest and latest date keys. -/
def getDateRange (dateStrings : Finset Int) : Option (Int × Int) :=
  if h : dateStrings.Nonempty then some (dateStrings.min' h, dateStrings.max' h) else none

/-- The object returned by `calculateAllHeatmaps`. -/
structure HeatmapData where
  heatmaps : Kind → Option KindEntry
  totalDays : Nat
  allUniqueDays : Finset Int
  dateRange : Option (Int × Int)

/-- Per-kind aggregation in `calculateAllHeatmaps`: a kind is aggregated only
when its record list is non-empty
(`if (allActivities[type] && allActivities[type].length > 0)`); duration
kinds (sleep, nursing, pumping) use `calculateDurationHeatmap` and instant
kinds (bottle, diaper) use `calculateInstantHeatmap`. -/
def kindResult (allActivities : AllActivities) : Kind → Option HeatmapAccum
  | .sleep =>
    if 0 < allActivities.sleep.length then some (calculateDurationHeatmap allActivities.sleep)
    else none
  | .nursing =>
    if 0 < allActivities.nursing.length then some (calculateDurationHeatmap allActivities.nursing)
    else none
  | .pumping =>
    if 0 < allActivities.pumping.length then some (calculateDurationHeatmap allActivities.pumping)
    else none
  | .bottle =>
    if 0 < allActivities.bottle.length then some (calculateInstantHeatmap allActivities.bottle)
    else none
  | .diaper =>
    if 0 < allActivities.diaper.length then some (calculateInstantHeatmap allActivities.diaper)
    else none

/-- The `allUniqueDays` set of `calculateAllHeatmaps`: the per-kind unique
days of every aggregated kind, accumulated in source order. -/
def allDaysOf (allActivities : AllActivities) : Finset Int :=
  unionDays (unionDays (unionDays (unionDays
    (unionDays ∅ (kindResult allActivities .sleep))
    (kindResult allActivities .nursing))
    (kindResult allActivities .pumping))
    (kindResult allActivities .bottle))
    (kindResult allActivities .diaper)

/-- Attaching `data.intensities` (plus the static color/name lookups, which
carry no data) to one kind's aggregation result. -/
def finishKind (totalDays : Nat) (r : HeatmapAccum) : KindEntry :=
  ⟨r.minuteDays, r.uniqueDays, r.totalCount, mkIntensities r.minuteDays totalDays⟩

/-- Embeds `calculateAllHeatmaps(allActivities)`: aggregate each non-empty
kind, union the per-kind unique days, and attach intensities normalized by
the global distinct-day count. -/
def calculateAllHeatmaps (allActivities : AllActivities) : HeatmapData :=
  { heatmaps := fun k =>
      (kindResult allActivities k).map (finishKind (allDaysOf allActivities).card)
    totalDays := (allDaysOf allActivities).card
    allUniqueDays := allDaysOf allActivities
    dateRange := getDateRange (allDaysOf allActivities) }

/-- One run segment `{ startMinute, endMinute, intensity }`. -/
structure Run where
  startMinute : Nat
  endMinute : Nat
  intensity : ℚ
deriving DecidableEq

/-- The segmenter's default tolerance (`threshold = 0.02`). -/
def defaultThreshold : ℚ := 1 / 50

/-- One iteration of the scanning loop of `findIntensityRuns`, at index `m`:
if the intensity moved by more than the threshold, close the current run
(emitting it only when its anchor intensity is positive) and open a new one
anchored at `m`.  State: (emitted runs, runStart, runIntensity). -/
def runStep (f : Nat → ℚ) (threshold : ℚ) (st : List Run × Nat × ℚ) (m : Nat) :
    List Run × Nat × ℚ :=
  let c := f m
  if threshold < mathAbs (c - st.2.2) then
    (if 0 < st.2.2 then st.1 ++ [⟨st.2.1, m, st.2.2⟩] else st.1, m, c)
  else st

/-- Embeds `findIntensityRuns(intensities, threshold)`: scan indices
`1 .. length-1`, then close the final run with its end forced to
`MINUTES_PER_DAY`, emitting it only when its intensity is positive. -/
def findIntensityRuns (intensities : List ℚ) (threshold : ℚ) : List Run :=
  if intensities.length = 0 then []
  else
    let f := fun m => intensities.getD m 0
    let st := (List.range' 1 (intensities.length - 1)).foldl (runStep f threshold) ([], 0, f 0)
    if 0 < st.2.2 then st.1 ++ [⟨st.2.1, MINUTES_PER_DAY, st.2.2⟩] else st.1

/-- `Math.min` on two `getTime()` instants. -/
def Timestamp.minT (a b : Timestamp) : Timestamp := if Timestamp.lt b a then b else a

/-- `Math.max` on two `getTime()` instants. -/
def Timestamp.maxT (a b : Timestamp) : Timestamp := if Timestamp.lt a b then b else a

/-- Embeds `thirtyDaysAgo.setDate(today.getDate() - 30)`: same time of day,
thirty days earlier. -/
def thirtyDaysBefore (t : Timestamp) : Timestamp := ⟨t.day - 30, t.minute⟩

/-- Embeds `initializeDateFilter`: given the timestamps of all activities and
the current instant, return the default `(filterStart, filterEnd)` window, or
`none` when there is no data (`allDates.length === 0`).  `filterStart` is
`thirtyDaysAgo > minDate ? thirtyDaysAgo : minDate`; `filterEnd` is
`today < maxDate ? today : maxDate`. -/
def initializeDateFilter (allDates : List Timestamp) (today : Timestamp) :
    Option (Timestamp × Timestamp) :=
  match allDates with
  | [] => none
  | d :: ds =>
    let minDate := ds.foldl Timestamp.minT d
    let maxDate := ds.foldl Timestamp.maxT d
    let thirtyDaysAgo := thirtyDaysBefore today
    let filterStart := if Timestamp.lt minDate thirtyDaysAgo then thirtyDaysAgo else minDate
    let filterEnd := if Timestamp.lt today maxDate then today else maxDate
    some (filterStart, filterEnd)

/-- The per-record predicate of `getFilteredActivities`: reject when
`activityDate < start` or `activityDate > end` for a present bound. -/
def keepActivity (startBound endBound : Option Timestamp) (t : Timestamp) : Bool :=
  (match startBound with
   | some s => ! Timestamp.lt t s
   | none => true) &&
  (match endBound with
   | some e => ! Timestamp.lt e t
   | none => true)

/-- Embeds `getFilteredActivities()`: when no bound is set return the
activities unchanged, otherwise filter each kind's list by its start
(duration kinds) or occurrence (instant kinds) timestamp. -/
def getFilteredActivities (activities : AllActivities) (startBound endBound : Option Timestamp) :
    AllActivities :=
  if startBound = none ∧ endBound = none then activities
  else
    { sleep := activities.sleep.filter (fun a => keepActivity startBound endBound a.start)
      nursing := activities.nursing.filter (fun a => keepActivity startBound endBound a.start)
      pumping := activities.pumping.filter (fun a => keepActivity startBound endBound a.start)
      bottle := activities.bottle.filter (fun a => keepActivity startBound endBound a.time)
      diaper := activities.diaper.filter (fun a => keepActivity startBound endBound a.time) }

/-! ## Helper lemmas about `mathAbs` and `mathMin` -/

lemma mathAbs_le_iff {x t : ℚ} : mathAbs x ≤ t ↔ -t ≤ x ∧ x ≤ t := by
  unfold mathAbs
  split_ifs with h
  · constructor
    · intro ht
      constructor <;> linarith
    · intro ht
      linarith [ht.1]
  · constructor
    · intro ht
      constructor <;> linarith
    · intro ht
      exact ht.2

lemma mathAbs_self_sub (a : ℚ) : mathAbs (a - a) = 0 := by
  simp [mathAbs]

lemma mathMin_eq_min (a b : ℚ) : mathMin a b = min a b := (min_def a b).symm

lemma getD_map_range (g : Nat → ℚ) (n m : Nat) (h : m < n) :
    ((List.range n).map g).getD m 0 = g m := by
  simp [List.getD, List.getElem?_map, List.getElem?_range h]

/-! ## The segmenter's scanning loop: invariant and closure lemmas -/

/-- Invariant of the scanning loop of `findIntensityRuns` after all indices up
to `bound` are processed: the run start never exceeds `bound`, the current
anchor intensity is the array value at the run start, and the emitted runs are
positive, increasing, non-overlapping, closed before the current run start,
and each carries the array value at its own start. -/
def ScanInv (f : Nat → ℚ) (bound : Nat) (st : List Run × Nat × ℚ) : Prop :=
  st.2.1 ≤ bound ∧ st.2.2 = f st.2.1 ∧
  List.Chain' (fun a b => a.endMinute ≤ b.startMinute) st.1 ∧
  ∀ r ∈ st.1, 0 < r.intensity ∧ r.startMinute < r.endMinute ∧ r.endMinute ≤ st.2.1 ∧
    r.intensity = f r.startMinute

lemma chain'_append_one {R : Run → Run → Prop} {l : List Run} {x : Run}
    (hc : List.Chain' R l) (h : ∀ y ∈ l, R y x) : List.Chain' R (l ++ [x]) := by
  rw [List.chain'_append]
  refine ⟨hc, List.chain'_singleton x, ?_⟩
  intro a ha b hb
  simp only [List.head?_cons, Option.mem_def, Option.some.injEq] at hb
  subst hb
  exact h a (List.mem_of_mem_getLast? ha)

lemma scanInv_step (f : Nat → ℚ) (t : ℚ) (k m : Nat) (st : List Run × Nat × ℚ)
    (hst : ScanInv f k st) (hkm : k < m) : ScanInv f m (runStep f t st m) := by
  obtain ⟨h1, h2, h3, h4⟩ := hst
  unfold runStep
  by_cases hc : t < mathAbs (f m - st.2.2)
  · rw [if_pos hc]
    by_cases hpos : 0 < st.2.2
    · rw [if_pos hpos]
      refine ⟨le_refl m, rfl, ?_, ?_⟩
      · exact chain'_append_one h3 (fun y hy => (h4 y hy).2.2.1)
      · intro r hr
        dsimp only at hr ⊢
        rcases List.mem_append.mp hr with hr | hr
        · obtain ⟨p1, p2, p3, p4⟩ := h4 r hr
          exact ⟨p1, p2, by omega, p4⟩
        · rw [List.mem_singleton] at hr
          subst hr
          exact ⟨hpos, by dsimp only; omega, le_refl m, h2⟩
    · rw [if_neg hpos]
      refine ⟨le_refl m, rfl, h3, ?_⟩
      intro r hr
      dsimp only at hr ⊢
      obtain ⟨p1, p2, p3, p4⟩ := h4 r hr
      exact ⟨p1, p2, by omega, p4⟩
  · rw [if_neg hc]
    refine ⟨by omega, h2, h3, h4⟩

lemma scanInv_fold (f : Nat → ℚ) (t : ℚ) :
    ∀ n, ScanInv f n ((List.range' 1 n).foldl (runStep f t) ([], 0, f 0)) := by
  intro n
  induction n with
  | zero => exact ⟨le_refl 0, rfl, List.chain'_nil, by simp⟩
  | succ n ih =>
    rw [List.range'_1_concat, List.foldl_append, List.foldl_cons, List.foldl_nil,
      Nat.add_comm 1 n]
    exact scanInv_step f t n (n + 1) _ ih (by omega)

lemma runStep_anchor_close (f : Nat → ℚ) (t : ℚ) (m : Nat) (st : List Run × Nat × ℚ)
    (ht : 0 ≤ t) : mathAbs (f m - (runStep f t st m).2.2) ≤ t := by
  unfold runStep
  by_cases hc : t < mathAbs (f m - st.2.2)
  · rw [if_pos hc]
    simpa [mathAbs_self_sub] using ht
  · rw [if_neg hc]
    exact le_of_not_lt hc

lemma fold_last_step (f : Nat → ℚ) (t : ℚ) (n : Nat) (hn : 1 ≤ n)
    (st₀ : List Run × Nat × ℚ) :
    (List.range' 1 n).foldl (runStep f t) st₀ =
      runStep f t ((List.range' 1 (n - 1)).foldl (runStep f t) st₀) n := by
  obtain ⟨k, rfl⟩ : ∃ k, n = k + 1 := ⟨n - 1, by omega⟩
  rw [List.range'_1_concat, List.foldl_append, List.foldl_cons, List.foldl_nil,
    Nat.add_comm 1 k]
  simp

lemma foldl_runStep_const (f : Nat → ℚ) (t : ℚ) (st : List Run × Nat × ℚ) (l : List Nat)
    (h : ∀ m ∈ l, ¬ t < mathAbs (f m - st.2.2)) : l.foldl (runStep f t) st = st := by
  induction l with
  | nil => rfl
  | cons a l ih =>
    rw [List.foldl_cons]
    have ha : runStep f t st a = st := by
      unfold runStep
      rw [if_neg (h a (List.mem_cons_self a l))]
    rw [ha]
    exact ih (fun m hm => h m (List.mem_cons_of_mem a hm))

/-! ## Claims about the segmenter -/

/-- C2 (counterexample): the claim "for every 1440-length intensity array
whose last sample is non-zero, the segmenter emits a final run whose end
minute is exactly 1440" is false as stated: an array that is zero everywhere
except a last sample of 1/100 (non-zero but within the default tolerance 0.02
of the zero anchor) produces no run at all, so no final run ending at 1440 is
emitted. -/
theorem c2_counterexample :
    ((List.range 1440).map (fun m => if m = 1439 then (1 : ℚ) / 100 else 0)).length = 1440 ∧
    ((List.range 1440).map (fun m => if m = 1439 then (1 : ℚ) / 100 else 0)).getD 1439 0 ≠ 0 ∧
    findIntensityRuns ((List.range 1440).map (fun m => if m = 1439 then (1 : ℚ) / 100 else 0))
      defaultThreshold = [] := by
  refine ⟨by simp, ?_, ?_⟩
  · rw [getD_map_range _ _ _ (by norm_num)]
    norm_num
  · unfold findIntensityRuns
    rw [if_neg (by simp)]
    simp only [List.length_map, List.length_range]
    have hf0 : ((List.range 1440).map (fun m => if m = 1439 then (1 : ℚ) / 100 else 0)).getD 0 0
        = 0 := by
      rw [getD_map_range _ _ _ (by norm_num)]
      norm_num
    have hconst : (List.range' 1 (1440 - 1)).foldl
        (runStep (fun m => ((List.range 1440).map
          (fun m => if m = 1439 then (1 : ℚ) / 100 else 0)).getD m 0) defaultThreshold)
        ([], 0, ((List.range 1440).map
          (fun m => if m = 1439 then (1 : ℚ) / 100 else 0)).getD 0 0) =
        ([], 0, ((List.range 1440).map
          (fun m => if m = 1439 then (1 : ℚ) / 100 else 0)).getD 0 0) := by
      apply foldl_runStep_const
      intro m hm
      rw [List.mem_range'_1] at hm
      rw [getD_map_range _ _ _ (by omega), hf0]
      by_cases hm9 : m = 1439
      · subst hm9
        rw [if_pos rfl, show mathAbs ((1 : ℚ) / 100 - 0) = 1 / 100 by unfold mathAbs; norm_num]
        unfold defaultThreshold
        norm_num
      · simp only [if_neg hm9]
        rw [show mathAbs ((0 : ℚ) - 0) = 0 by unfold mathAbs; norm_num]
        unfold defaultThreshold
        norm_num
    rw [hconst, if_neg (by rw [hf0]; norm_num)]

/-- C2 (amended): for every 1440-length intensity array whose last sample is
strictly greater than the (non-negative) tolerance, the segmenter emits a
final run, and that final run's end minute is forced to exactly 1440, never
earlier, regardless of where the scanning loop ended. -/
theorem c2_final_run_closure (intensities : List ℚ) (threshold : ℚ)
    (ht : 0 ≤ threshold) (hlen : intensities.length = 1440)
    (hlast : threshold < intensities.getD 1439 0) :
    ∃ runs r, findIntensityRuns intensities threshold = runs ++ [r] ∧
      r.endMinute = MINUTES_PER_DAY ∧ 0 < r.intensity := by
  unfold findIntensityRuns
  rw [if_neg (by omega)]
  simp only [hlen]
  have hsplit := fold_last_step (fun m => intensities.getD m 0) threshold 1439 (by norm_num)
    ([], 0, intensities.getD 0 0)
  rw [show (1440 - 1 : Nat) = 1439 by norm_num, hsplit]
  have hclose := runStep_anchor_close (fun m => intensities.getD m 0) threshold 1439
    ((List.range' 1 (1439 - 1)).foldl (runStep (fun m => intensities.getD m 0) threshold)
      ([], 0, intensities.getD 0 0)) ht
  have hbounds := mathAbs_le_iff.mp hclose
  have hpos : 0 < (runStep (fun m => intensities.getD m 0) threshold
      ((List.range' 1 (1439 - 1)).foldl (runStep (fun m => intensities.getD m 0) threshold)
        ([], 0, intensities.getD 0 0)) 1439).2.2 := by
    have h1 := hbounds.2
    simp only at h1 ⊢
    linarith
  rw [if_pos hpos]
  exact ⟨_, _, rfl, rfl, hpos⟩

/-- C2 (witness): the amended theorem applied to the array that is zero
except for a last sample of 1, with the default tolerance. -/
theorem c2_final_run_closure_witness :
    ∃ runs r, findIntensityRuns
        ((List.range 1440).map (fun m => if m = 1439 then (1 : ℚ) else 0)) defaultThreshold =
        runs ++ [r] ∧ r.endMinute = MINUTES_PER_DAY ∧ 0 < r.intensity :=
  c2_final_run_closure _ _ (by unfold defaultThreshold; norm_num) (by simp)
    (by rw [getD_map_range _ _ _ (by norm_num)]; unfold defaultThreshold; norm_num)

/-- C6: for every 1440-length intensity array and every tolerance, every
emitted segment has strictly positive intensity and start strictly below end,
and the segments appear in increasing, non-overlapping order (each segment
ends no later than the next begins); zero-intensity ranges are omitted rather
than emitted with intensity 0. -/
theorem c6_segment_invariants (intensities : List ℚ) (threshold : ℚ)
    (hlen : intensities.length = 1440) :
    (∀ r ∈ findIntensityRuns intensities threshold,
        0 < r.intensity ∧ r.startMinute < r.endMinute) ∧
    List.Chain' (fun a b => a.endMinute ≤ b.startMinute)
      (findIntensityRuns intensities threshold) := by
  unfold findIntensityRuns
  rw [if_neg (by omega)]
  simp only [hlen]
  obtain ⟨h1, h2, h3, h4⟩ := scanInv_fold (fun m => intensities.getD m 0) threshold (1440 - 1)
  by_cases hpos : 0 < ((List.range' 1 (1440 - 1)).foldl
      (runStep (fun m => intensities.getD m 0) threshold) ([], 0, intensities.getD 0 0)).2.2
  · rw [if_pos hpos]
    constructor
    · intro r hr
      rcases List.mem_append.mp hr with hr | hr
      · obtain ⟨p1, p2, p3, p4⟩ := h4 r hr
        exact ⟨p1, p2⟩
      · rw [List.mem_singleton] at hr
        subst hr
        refine ⟨hpos, ?_⟩
        dsimp only
        unfold MINUTES_PER_DAY
        omega
    · exact chain'_append_one h3 (fun y hy => (h4 y hy).2.2.1)
  · rw [if_neg hpos]
    exact ⟨fun r hr => ⟨(h4 r hr).1, (h4 r hr).2.1⟩, h3⟩

/-- C6 (witness): the theorem applied to the all-ones array with the default
tolerance. -/
theorem c6_segment_invariants_witness :
    (∀ r ∈ findIntensityRuns ((List.range 1440).map (fun _ => (1 : ℚ))) defaultThreshold,
        0 < r.intensity ∧ r.startMinute < r.endMinute) ∧
    List.Chain' (fun a b => a.endMinute ≤ b.startMinute)
      (findIntensityRuns ((List.range 1440).map (fun _ => (1 : ℚ))) defaultThreshold) :=
  c6_segment_invariants _ _ (by simp)

/-- C10: every segment the segmenter emits carries as its intensity exactly
the array value at the segment's start minute (the run's anchor value), for
every intensity array and tolerance. -/
theorem c10_anchor_intensity (intensities : List ℚ) (threshold : ℚ) (r : Run)
    (hr : r ∈ findIntensityRuns intensities threshold) :
    r.intensity = intensities.getD r.startMinute 0 := by
  unfold findIntensityRuns at hr
  by_cases h0 : intensities.length = 0
  · rw [if_pos h0] at hr
    exact absurd hr (List.not_mem_nil r)
  · rw [if_neg h0] at hr
    obtain ⟨h1, h2, h3, h4⟩ := scanInv_fold (fun m => intensities.getD m 0) threshold
      (intensities.length - 1)
    by_cases hpos : 0 < ((List.range' 1 (intensities.length - 1)).foldl
        (runStep (fun m => intensities.getD m 0) threshold)
        ([], 0, intensities.getD 0 0)).2.2
    · rw [if_pos hpos] at hr
      rcases List.mem_append.mp hr with hr | hr
      · exact (h4 r hr).2.2.2
      · rw [List.mem_singleton] at hr
        subst hr
        exact h2
    · rw [if_neg hpos] at hr
      exact (h4 r hr).2.2.2

/-- C10 (witness): the first run emitted for the array `[1, 1, 0, 1]` carries
the array value at its start minute 0. -/
theorem c10_anchor_intensity_witness :
    (⟨0, 2, (1 : ℚ)⟩ : Run).intensity = ([1, 1, 0, 1] : List ℚ).getD 0 0 :=
  c10_anchor_intensity [1, 1, 0, 1] defaultThreshold ⟨0, 2, 1⟩ (by
    have h : findIntensityRuns [1, 1, 0, 1] defaultThreshold =
        [⟨0, 2, 1⟩, ⟨3, 1440, 1⟩] := by
      norm_num [findIntensityRuns, runStep, mathAbs, defaultThreshold, MINUTES_PER_DAY,
        List.range'_succ]
    rw [h]
    simp)

/-! ## The aggregator's day-set marking: membership characterization -/

lemma tmod_1440_bounds (x : Int) : -1440 < x.tmod 1440 ∧ x.tmod 1440 < 1440 := by
  cases x with
  | ofNat n =>
    have h : Int.tmod (Int.ofNat n) 1440 = ((n % 1440 : Nat) : Int) := rfl
    have h2 : n % 1440 < 1440 := Nat.mod_lt _ (by norm_num)
    rw [h]
    omega
  | negSucc n =>
    have h : Int.tmod (Int.negSucc n) 1440 = -(((n + 1) % 1440 : Nat) : Int) := rfl
    have h2 : (n + 1) % 1440 < 1440 := Nat.mod_lt _ (by norm_num)
    rw [h]
    omega

/-- The JavaScript double-remainder normalization is the euclidean remainder. -/
lemma normalizeMinute_eq_emod (x : Int) : normalizeMinute x = x % 1440 := by
  obtain ⟨hlow, hhi⟩ := tmod_1440_bounds x
  have hd : x.tmod 1440 = x - 1440 * (x.tdiv 1440) := Int.tmod_def x 1440
  have he : ((x.tmod 1440) + 1440).tmod 1440 = ((x.tmod 1440) + 1440) % 1440 :=
    Int.tmod_eq_emod (by omega) (by norm_num)
  show ((x.tmod 1440) + 1440).tmod 1440 = x % 1440
  rw [he]
  omega

/-- Which slots the two marking loops of `markMinuteRange` touch. -/
def markedRange (s dur m : Nat) : Prop :=
  if s + dur ≤ MINUTES_PER_DAY then s ≤ m ∧ m < s + dur
  else (s ≤ m ∧ m < MINUTES_PER_DAY) ∨ m < (s + dur) % MINUTES_PER_DAY

lemma mem_markMinuteRange (md : Nat → Finset Int) (s dur : Nat) (key d : Int) (m : Nat) :
    d ∈ markMinuteRange md s dur key m ↔ (markedRange s dur m ∧ d = key) ∨ d ∈ md m := by
  simp only [markMinuteRange, markedRange]
  split_ifs with h h1 h1 <;> (try simp only [Finset.mem_insert]) <;> tauto

/-- For a start minute below 1440 and a duration of at most one day, the
slots `markMinuteRange` marks are exactly the minutes covered by
`[s, s + dur)` reduced modulo 1440. -/
lemma markedRange_iff_mod (s dur m : Nat) (hs : s < 1440) (hd : dur ≤ 1440) :
    markedRange s dur m ↔ ∃ j, s ≤ j ∧ j < s + dur ∧ j % 1440 = m := by
  unfold markedRange MINUTES_PER_DAY
  split_ifs with h
  · constructor
    · rintro ⟨h1, h2⟩
      exact ⟨m, h1, h2, by omega⟩
    · rintro ⟨j, h1, h2, h3⟩
      omega
  · constructor
    · rintro (⟨h1, h2⟩ | h1)
      · exact ⟨m, h1, by omega, by omega⟩
      · exact ⟨m + 1440, by omega, by omega, by omega⟩
    · rintro ⟨j, h1, h2, h3⟩
      omega

/-- Which slots the instant-event window marking touches: the symmetric
seven-minute window around the event's minute, wrapping modulo 1440. -/
lemma mem_instantWindow (c : Nat) (m : Int) :
    m ∈ instantWindow c ↔
      ∃ off : Int, -7 ≤ off ∧ off ≤ 7 ∧ ((c : Int) + off) % 1440 = m := by
  unfold instantWindow HALF_WINDOW
  simp only [List.mem_map, List.mem_range, normalizeMinute_eq_emod]
  constructor
  · rintro ⟨i, hi, rfl⟩
    refine ⟨(i : Int) - 7, by omega, by omega, ?_⟩
    congr 1
    ring
  · rintro ⟨off, h1, h2, rfl⟩
    refine ⟨(off + 7).toNat, by omega, ?_⟩
    congr 1
    omega

lemma mem_markInstantWindow (md : Nat → Finset Int) (c : Nat) (key d : Int) (m : Nat) :
    d ∈ markInstantWindow md c key m ↔
      (((m : Int) ∈ instantWindow c) ∧ d = key) ∨ d ∈ md m := by
  simp only [markInstantWindow]
  split_ifs with h <;> (try simp only [Finset.mem_insert]) <;> tauto

lemma mem_foldl_durationStep (l : List DurationActivity) (acc : HeatmapAccum)
    (m : Nat) (d : Int) :
    d ∈ (l.foldl durationStep acc).minuteDays m ↔
      d ∈ acc.minuteDays m ∨
      ∃ a ∈ l, getDateString a.start = d ∧
        markedRange (timeToMinutes a.start) a.durationMinutes m := by
  induction l generalizing acc with
  | nil => simp
  | cons a l ih =>
    rw [List.foldl_cons, ih (durationStep acc a)]
    have hstep : d ∈ (durationStep acc a).minuteDays m ↔
        (markedRange (timeToMinutes a.start) a.durationMinutes m ∧ d = getDateString a.start) ∨
        d ∈ acc.minuteDays m :=
      mem_markMinuteRange acc.minuteDays _ _ _ d m
    rw [hstep, List.exists_mem_cons_iff]
    constructor
    · rintro ((⟨h1, h2⟩ | h1) | h1)
      · exact Or.inr (Or.inl ⟨h2.symm, h1⟩)
      · exact Or.inl h1
      · exact Or.inr (Or.inr h1)
    · rintro (h1 | (⟨h1, h2⟩ | h1))
      · exact Or.inl (Or.inr h1)
      · exact Or.inl (Or.inl ⟨h2, h1.symm⟩)
      · exact Or.inr h1

lemma mem_foldl_instantStep (l : List InstantActivity) (acc : HeatmapAccum)
    (m : Nat) (d : Int) :
    d ∈ (l.foldl instantStep acc).minuteDays m ↔
      d ∈ acc.minuteDays m ∨
      ∃ a ∈ l, getDateString a.time = d ∧
        (m : Int) ∈ instantWindow (timeToMinutes a.time) := by
  induction l generalizing acc with
  | nil => simp
  | cons a l ih =>
    rw [List.foldl_cons, ih (instantStep acc a)]
    have hstep : d ∈ (instantStep acc a).minuteDays m ↔
        (((m : Int) ∈ instantWindow (timeToMinutes a.time)) ∧ d = getDateString a.time) ∨
        d ∈ acc.minuteDays m :=
      mem_markInstantWindow acc.minuteDays _ _ d m
    rw [hstep, List.exists_mem_cons_iff]
    constructor
    · rintro ((⟨h1, h2⟩ | h1) | h1)
      · exact Or.inr (Or.inl ⟨h2.symm, h1⟩)
      · exact Or.inl h1
      · exact Or.inr (Or.inr h1)
    · rintro (h1 | (⟨h1, h2⟩ | h1))
      · exact Or.inl (Or.inr h1)
      · exact Or.inl (Or.inl ⟨h2, h1.symm⟩)
      · exact Or.inr h1

/-! ## Claims about the day-set coverage invariant -/

/-- C3 (counterexample): the claim's "covers" condition for interval kinds
(the half-open range `[start, start + duration)` includes `m` modulo 1440)
disagrees with the code on a record lasting longer than one day: a sleep
record starting at minute 1400 with duration 1480 leaves the day set at
minute 0 empty even though `1440 ∈ [1400, 2880)` and `1440 % 1440 = 0`. -/
theorem c3_counterexample :
    ¬ ((0 : Int) ∈ (calculateDurationHeatmap [⟨⟨0, 1400⟩, 1480⟩]).minuteDays 0 ↔
       ∃ a ∈ [(⟨⟨0, 1400⟩, 1480⟩ : DurationActivity)], getDateString a.start = 0 ∧
         ∃ j, timeToMinutes a.start ≤ j ∧ j < timeToMinutes a.start + a.durationMinutes ∧
           j % 1440 = 0) := by
  intro h
  have hr : ∃ a ∈ [(⟨⟨0, 1400⟩, 1480⟩ : DurationActivity)], getDateString a.start = 0 ∧
      ∃ j, timeToMinutes a.start ≤ j ∧ j < timeToMinutes a.start + a.durationMinutes ∧
        j % 1440 = 0 := by
    refine ⟨⟨⟨0, 1400⟩, 1480⟩, List.mem_singleton.mpr rfl, rfl, 1440, ?_, ?_, ?_⟩ <;>
      norm_num [timeToMinutes]
  exact absurd (h.mpr hr) (by decide)

/-- C3 (amended): for records whose duration is at most one day (1440
minutes), a date key is in day-set slot `m` after duration aggregation iff
some record on that date covers `m` — where "covers" means the half-open
range `[startMinute, startMinute + duration)` includes `m` modulo 1440 —
and a date key is in day-set slot `m` after instant aggregation iff some
record on that date has `m` in the symmetric ±7-minute window around the
event's minute, modulo 1440. -/
theorem c3_day_set_coverage (das : List DurationActivity) (ias : List InstantActivity)
    (m : Nat) (d : Int)
    (hdas : ∀ a ∈ das, timeToMinutes a.start < 1440 ∧ a.durationMinutes ≤ 1440) :
    (d ∈ (calculateDurationHeatmap das).minuteDays m ↔
      ∃ a ∈ das, getDateString a.start = d ∧
        ∃ j, timeToMinutes a.start ≤ j ∧ j < timeToMinutes a.start + a.durationMinutes ∧
          j % 1440 = m) ∧
    (d ∈ (calculateInstantHeatmap ias).minuteDays m ↔
      ∃ a ∈ ias, getDateString a.time = d ∧
        ∃ off : Int, -7 ≤ off ∧ off ≤ 7 ∧
          ((timeToMinutes a.time : Int) + off) % 1440 = (m : Int)) := by
  constructor
  · rw [calculateDurationHeatmap, mem_foldl_durationStep]
    simp only [show ∀ d : Int, (d ∈ (⟨fun _ => ∅, ∅, 0⟩ : HeatmapAccum).minuteDays m) = False
      from fun d => by simp [HeatmapAccum.minuteDays], false_or]
    constructor
    · rintro ⟨a, ha, h1, h2⟩
      exact ⟨a, ha, h1,
        (markedRange_iff_mod _ _ m (hdas a ha).1 (hdas a ha).2).mp h2⟩
    · rintro ⟨a, ha, h1, h2⟩
      exact ⟨a, ha, h1,
        (markedRange_iff_mod _ _ m (hdas a ha).1 (hdas a ha).2).mpr h2⟩
  · rw [calculateInstantHeatmap, mem_foldl_instantStep]
    simp only [show ∀ d : Int, (d ∈ (⟨fun _ => ∅, ∅, 0⟩ : HeatmapAccum).minuteDays m) = False
      from fun d => by simp [HeatmapAccum.minuteDays], false_or]
    constructor
    · rintro ⟨a, ha, h1, h2⟩
      exact ⟨a, ha, h1, (mem_instantWindow _ _).mp h2⟩
    · rintro ⟨a, ha, h1, h2⟩
      exact ⟨a, ha, h1, (mem_instantWindow _ _).mpr h2⟩

/-- C3 (witness): the amended coverage equivalence at a one-record overnight
sleep list and a one-record diaper list, at slot 1205. -/
theorem c3_day_set_coverage_witness :
    ((0 : Int) ∈ (calculateDurationHeatmap [⟨⟨0, 1200⟩, 300⟩]).minuteDays 1205 ↔
      ∃ a ∈ [(⟨⟨0, 1200⟩, 300⟩ : DurationActivity)], getDateString a.start = 0 ∧
        ∃ j, timeToMinutes a.start ≤ j ∧ j < timeToMinutes a.start + a.durationMinutes ∧
          j % 1440 = 1205) ∧
    ((0 : Int) ∈ (calculateInstantHeatmap [⟨⟨5, 10⟩⟩]).minuteDays 1205 ↔
      ∃ a ∈ [(⟨⟨5, 10⟩⟩ : InstantActivity)], getDateString a.time = 0 ∧
        ∃ off : Int, -7 ≤ off ∧ off ≤ 7 ∧
          ((timeToMinutes a.time : Int) + off) % 1440 = (1205 : Int)) :=
  c3_day_set_coverage [⟨⟨0, 1200⟩, 300⟩] [⟨⟨5, 10⟩⟩] 1205 0 (by
    intro a ha
    rw [List.mem_singleton] at ha
    subst ha
    exact ⟨by norm_num [timeToMinutes], by norm_num⟩)

/-! ## Unique-day bookkeeping of the aggregator -/

lemma uniqueDays_foldl_duration (l : List DurationActivity) (acc : HeatmapAccum) :
    (l.foldl durationStep acc).uniqueDays =
      acc.uniqueDays ∪ (l.map (fun a => getDateString a.start)).toFinset := by
  induction l generalizing acc with
  | nil => simp
  | cons a l ih =>
    rw [List.foldl_cons, ih (durationStep acc a)]
    show insert (getDateString a.start) acc.uniqueDays ∪ _ = _
    ext x
    simp [Finset.mem_union, Finset.mem_insert]
    try tauto

lemma uniqueDays_foldl_instant (l : List InstantActivity) (acc : HeatmapAccum) :
    (l.foldl instantStep acc).uniqueDays =
      acc.uniqueDays ∪ (l.map (fun a => getDateString a.time)).toFinset := by
  induction l generalizing acc with
  | nil => simp
  | cons a l ih =>
    rw [List.foldl_cons, ih (instantStep acc a)]
    show insert (getDateString a.time) acc.uniqueDays ∪ _ = _
    ext x
    simp [Finset.mem_union, Finset.mem_insert]
    try tauto

lemma uniqueDays_duration (l : List DurationActivity) :
    (calculateDurationHeatmap l).uniqueDays =
      (l.map (fun a => getDateString a.start)).toFinset := by
  rw [calculateDurationHeatmap, uniqueDays_foldl_duration]
  show ∅ ∪ _ = _
  exact Finset.empty_union _

lemma uniqueDays_instant (l : List InstantActivity) :
    (calculateInstantHeatmap l).uniqueDays =
      (l.map (fun a => getDateString a.time)).toFinset := by
  rw [calculateInstantHeatmap, uniqueDays_foldl_instant]
  show ∅ ∪ _ = _
  exact Finset.empty_union _

lemma markMinuteRange_subset (md : Nat → Finset Int) (s dur : Nat) (key : Int) (m : Nat) :
    markMinuteRange md s dur key m ⊆ insert key (md m) := by
  simp only [markMinuteRange]
  split_ifs
  all_goals first
    | exact Finset.Subset.refl _
    | exact Finset.subset_insert _ _

lemma markInstantWindow_subset (md : Nat → Finset Int) (c : Nat) (key : Int) (m : Nat) :
    markInstantWindow md c key m ⊆ insert key (md m) := by
  simp only [markInstantWindow]
  split_ifs
  · exact Finset.Subset.refl _
  · exact Finset.subset_insert _ _

lemma minuteDays_subset_foldl_duration (l : List DurationActivity) (acc : HeatmapAccum)
    (hacc : ∀ m, acc.minuteDays m ⊆ acc.uniqueDays) (m : Nat) :
    (l.foldl durationStep acc).minuteDays m ⊆ (l.foldl durationStep acc).uniqueDays := by
  induction l generalizing acc with
  | nil => exact hacc m
  | cons a l ih =>
    rw [List.foldl_cons]
    refine ih (durationStep acc a) ?_
    intro m'
    refine (markMinuteRange_subset acc.minuteDays _ _ _ m').trans ?_
    exact Finset.insert_subset_insert _ (hacc m')

lemma minuteDays_subset_foldl_instant (l : List InstantActivity) (acc : HeatmapAccum)
    (hacc : ∀ m, acc.minuteDays m ⊆ acc.uniqueDays) (m : Nat) :
    (l.foldl instantStep acc).minuteDays m ⊆ (l.foldl instantStep acc).uniqueDays := by
  induction l generalizing acc with
  | nil => exact hacc m
  | cons a l ih =>
    rw [List.foldl_cons]
    refine ih (instantStep acc a) ?_
    intro m'
    refine (markInstantWindow_subset acc.minuteDays _ _ m').trans ?_
    exact Finset.insert_subset_insert _ (hacc m')

lemma minuteDays_subset_duration (l : List DurationActivity) (m : Nat) :
    (calculateDurationHeatmap l).minuteDays m ⊆ (calculateDurationHeatmap l).uniqueDays :=
  minuteDays_subset_foldl_duration l ⟨fun _ => ∅, ∅, 0⟩ (fun _ => Finset.Subset.refl _) m

lemma minuteDays_subset_instant (l : List InstantActivity) (m : Nat) :
    (calculateInstantHeatmap l).minuteDays m ⊆ (calculateInstantHeatmap l).uniqueDays :=
  minuteDays_subset_foldl_instant l ⟨fun _ => ∅, ∅, 0⟩ (fun _ => Finset.Subset.refl _) m

lemma unionDays_subset_left (s : Finset Int) (o : Option HeatmapAccum) :
    s ⊆ unionDays s o := by
  cases o with
  | none => exact Finset.Subset.refl s
  | some r => exact Finset.subset_union_left

lemma kindResult_minuteDays_subset (acts : AllActivities) (k : Kind) (r : HeatmapAccum)
    (h : kindResult acts k = some r) (m : Nat) : r.minuteDays m ⊆ r.uniqueDays := by
  cases k <;> (
    simp only [kindResult] at h
    split_ifs at h with hc
    obtain rfl := Option.some.inj h
    first
      | exact minuteDays_subset_duration _ m
      | exact minuteDays_subset_instant _ m)

lemma kindResult_uniqueDays_subset (acts : AllActivities) (k : Kind) (r : HeatmapAccum)
    (h : kindResult acts k = some r) : r.uniqueDays ⊆ allDaysOf acts := by
  have hsub : ∀ s : Finset Int, r.uniqueDays ⊆ unionDays s (some r) :=
    fun s => Finset.subset_union_right
  unfold allDaysOf
  cases k
  · rw [h]
    exact ((((hsub _).trans (unionDays_subset_left _ _)).trans
      (unionDays_subset_left _ _)).trans (unionDays_subset_left _ _)).trans
      (unionDays_subset_left _ _)
  · rw [h]
    exact (((hsub _).trans (unionDays_subset_left _ _)).trans
      (unionDays_subset_left _ _)).trans (unionDays_subset_left _ _)
  · rw [h]
    exact ((hsub _).trans (unionDays_subset_left _ _)).trans (unionDays_subset_left _ _)
  · rw [h]
    exact (hsub _).trans (unionDays_subset_left _ _)
  · rw [h]
    exact hsub _

/-- The date keys of every record in the dataset, across all kinds. -/
def allDateKeys (acts : AllActivities) : List Int :=
  acts.sleep.map (fun a => getDateString a.start) ++
  acts.nursing.map (fun a => getDateString a.start) ++
  acts.pumping.map (fun a => getDateString a.start) ++
  acts.bottle.map (fun a => getDateString a.time) ++
  acts.diaper.map (fun a => getDateString a.time)

lemma unionDays_duration (s : Finset Int) (l : List DurationActivity) :
    unionDays s (if 0 < l.length then some (calculateDurationHeatmap l) else none) =
      s ∪ (l.map (fun a => getDateString a.start)).toFinset := by
  split_ifs with h
  · show s ∪ _ = _
    rw [uniqueDays_duration]
  · obtain rfl : l = [] := List.length_eq_zero.mp (by omega)
    show s = s ∪ ∅
    rw [Finset.union_empty]

lemma unionDays_instant (s : Finset Int) (l : List InstantActivity) :
    unionDays s (if 0 < l.length then some (calculateInstantHeatmap l) else none) =
      s ∪ (l.map (fun a => getDateString a.time)).toFinset := by
  split_ifs with h
  · show s ∪ _ = _
    rw [uniqueDays_instant]
  · obtain rfl : l = [] := List.length_eq_zero.mp (by omega)
    show s = s ∪ ∅
    rw [Finset.union_empty]

/-- The global unique-day set is the set of date keys of all records. -/
lemma allDaysOf_eq (acts : AllActivities) : allDaysOf acts = (allDateKeys acts).toFinset := by
  unfold allDaysOf kindResult allDateKeys
  rw [unionDays_duration, unionDays_duration, unionDays_duration, unionDays_instant,
    unionDays_instant]
  simp only [List.toFinset_append]
  ext x
  simp [Finset.mem_union]
  try tauto

lemma mkIntensities_getD (md : Nat → Finset Int) (D m : Nat) (hm : m < 1440) :
    (mkIntensities md D).getD m 0 =
      if 0 < D then mathMin 1 (((md m).card : ℚ) / (D : ℚ)) else 0 := by
  unfold mkIntensities MINUTES_PER_DAY
  exact getD_map_range _ _ _ hm

/-! ## Claims about normalization, absent kinds and the zero denominator -/

/-- The length of one kind's record list in the dataset. -/
def kindLength (acts : AllActivities) : Kind → Nat
  | .sleep => acts.sleep.length
  | .nursing => acts.nursing.length
  | .pumping => acts.pumping.length
  | .bottle => acts.bottle.length
  | .diaper => acts.diaper.length

/-- C5: the denominator `D` is the cardinality of the union of the distinct
record dates across all kinds; for every kind present and minute `m < 1440`,
when `D > 0` the intensity is `min(1, |day-set m| / D)`; the day-set
cardinality (which deduplicates same-date records) never exceeds `D`; and
every intensity lies in `[0, 1]`. -/
theorem c5_normalization (acts : AllActivities) (k : Kind) (e : KindEntry) (m : Nat)
    (hk : (calculateAllHeatmaps acts).heatmaps k = some e) (hm : m < 1440) :
    (calculateAllHeatmaps acts).totalDays = (allDateKeys acts).toFinset.card ∧
    (0 < (calculateAllHeatmaps acts).totalDays →
      e.intensities.getD m 0 =
        min 1 (((e.minuteDays m).card : ℚ) / ((calculateAllHeatmaps acts).totalDays : ℚ))) ∧
    (e.minuteDays m).card ≤ (calculateAllHeatmaps acts).totalDays ∧
    0 ≤ e.intensities.getD m 0 ∧ e.intensities.getD m 0 ≤ 1 := by
  have hk' : (kindResult acts k).map (finishKind (allDaysOf acts).card) = some e := hk
  obtain ⟨r, hr, rfl⟩ := Option.map_eq_some'.mp hk'
  refine ⟨?_, ?_, ?_, ?_, ?_⟩
  · show (allDaysOf acts).card = _
    rw [allDaysOf_eq]
  · intro hD
    show (mkIntensities r.minuteDays (allDaysOf acts).card).getD m 0 = _
    rw [mkIntensities_getD _ _ _ hm, if_pos (show 0 < (allDaysOf acts).card from hD),
      mathMin_eq_min]
    rfl
  · have h1 : r.minuteDays m ⊆ r.uniqueDays := kindResult_minuteDays_subset acts k r hr m
    have h2 : r.uniqueDays ⊆ allDaysOf acts := kindResult_uniqueDays_subset acts k r hr
    exact Finset.card_le_card (h1.trans h2)
  · show 0 ≤ (mkIntensities r.minuteDays (allDaysOf acts).card).getD m 0
    rw [mkIntensities_getD _ _ _ hm]
    split_ifs with hD
    · rw [mathMin_eq_min]
      exact le_min (by norm_num) (div_nonneg (Nat.cast_nonneg _) (Nat.cast_nonneg _))
    · exact le_refl 0
  · show (mkIntensities r.minuteDays (allDaysOf acts).card).getD m 0 ≤ 1
    rw [mkIntensities_getD _ _ _ hm]
    split_ifs with hD
    · rw [mathMin_eq_min]
      exact min_le_left 1 _
    · norm_num

/-- The one-record overnight-sleep dataset of the spec's end-to-end scenario:
a single sleep record on day 0 starting at minute 1200 with duration 300. -/
def overnightActs : AllActivities := ⟨[⟨⟨0, 1200⟩, 300⟩], [], [], [], []⟩

/-- The sleep entry the aggregation produces for `overnightActs`. -/
def overnightSleepEntry : KindEntry :=
  ((calculateAllHeatmaps overnightActs).heatmaps Kind.sleep).getD ⟨fun _ => ∅, ∅, 0, []⟩

/-- C5 (witness): the normalization facts at the overnight scenario, sleep
kind, minute 1205. -/
theorem c5_normalization_witness :
    (calculateAllHeatmaps overnightActs).totalDays =
      (allDateKeys overnightActs).toFinset.card ∧
    (0 < (calculateAllHeatmaps overnightActs).totalDays →
      overnightSleepEntry.intensities.getD 1205 0 =
        min 1 (((overnightSleepEntry.minuteDays 1205).card : ℚ) /
          ((calculateAllHeatmaps overnightActs).totalDays : ℚ))) ∧
    (overnightSleepEntry.minuteDays 1205).card ≤ (calculateAllHeatmaps overnightActs).totalDays ∧
    0 ≤ overnightSleepEntry.intensities.getD 1205 0 ∧
    overnightSleepEntry.intensities.getD 1205 0 ≤ 1 :=
  c5_normalization overnightActs Kind.sleep overnightSleepEntry 1205 rfl (by norm_num)

/-- C8: an entirely empty dataset aggregates without error to a distinct-day
count of zero, no kind entry at all, and a `null` date range; and the guarded
intensity computation maps a zero denominator to all-zero intensities. -/
theorem c8_zero_days_degrade (acts : AllActivities)
    (h : acts.sleep = [] ∧ acts.nursing = [] ∧ acts.pumping = [] ∧ acts.bottle = [] ∧
      acts.diaper = []) :
    (calculateAllHeatmaps acts).totalDays = 0 ∧
    (∀ k, (calculateAllHeatmaps acts).heatmaps k = none) ∧
    (∀ md m, m < 1440 → (mkIntensities md 0).getD m 0 = 0) ∧
    (calculateAllHeatmaps acts).dateRange = none := by
  obtain ⟨h1, h2, h3, h4, h5⟩ := h
  have hall : allDaysOf acts = ∅ := by
    unfold allDaysOf kindResult
    rw [h1, h2, h3, h4, h5]
    simp [unionDays]
  refine ⟨?_, ?_, ?_, ?_⟩
  · show (allDaysOf acts).card = 0
    rw [hall]
    rfl
  · intro k
    show ((kindResult acts k).map _) = none
    cases k <;> simp [kindResult, h1, h2, h3, h4, h5]
  · intro md m hm
    rw [mkIntensities_getD md 0 m hm]
    rfl
  · show getDateRange (allDaysOf acts) = none
    rw [hall]
    simp [getDateRange]

/-- C8 (witness): the theorem applied to the empty dataset. -/
theorem c8_zero_days_degrade_witness :
    (calculateAllHeatmaps ⟨[], [], [], [], []⟩).totalDays = 0 ∧
    (∀ k, (calculateAllHeatmaps ⟨[], [], [], [], []⟩).heatmaps k = none) ∧
    (∀ md m, m < 1440 → (mkIntensities md 0).getD m 0 = 0) ∧
    (calculateAllHeatmaps ⟨[], [], [], [], []⟩).dateRange = none :=
  c8_zero_days_degrade ⟨[], [], [], [], []⟩ ⟨rfl, rfl, rfl, rfl, rfl⟩

/-- C9 (implicit): a kind has an entry in the `heatmaps` output iff its record
list is non-empty; a kind with no records contributes no entry at all. -/
theorem c9_absent_kinds_omitted (acts : AllActivities) (k : Kind) :
    ((calculateAllHeatmaps acts).heatmaps k).isSome = true ↔ 0 < kindLength acts k := by
  show ((kindResult acts k).map _).isSome = true ↔ _
  cases k <;> (
    simp only [kindResult, kindLength]
    split_ifs with h <;> simp [h])

/-! ## Order facts about timestamps -/

lemma Timestamp.le_iff (a b : Timestamp) :
    Timestamp.le a b = true ↔ a.day < b.day ∨ (a.day = b.day ∧ a.minute ≤ b.minute) := by
  unfold Timestamp.le
  simp [Bool.or_eq_true, Bool.and_eq_true, decide_eq_true_eq]

lemma Timestamp.lt_iff (a b : Timestamp) :
    Timestamp.lt a b = true ↔ a.day < b.day ∨ (a.day = b.day ∧ a.minute < b.minute) := by
  unfold Timestamp.lt
  simp [Bool.or_eq_true, Bool.and_eq_true, decide_eq_true_eq]

lemma Timestamp.lt_eq_false_iff (a b : Timestamp) :
    Timestamp.lt a b = false ↔ Timestamp.le b a = true := by
  rw [← Bool.not_eq_true, Timestamp.lt_iff, Timestamp.le_iff]
  omega

lemma Timestamp.le_rfl (a : Timestamp) : Timestamp.le a a = true := by
  rw [Timestamp.le_iff]
  omega

lemma Timestamp.le_of_lt {a b : Timestamp} (h : Timestamp.lt a b = true) :
    Timestamp.le a b = true := by
  rw [Timestamp.lt_iff] at h
  rw [Timestamp.le_iff]
  omega

lemma Timestamp.le_trans {a b c : Timestamp} (h1 : Timestamp.le a b = true)
    (h2 : Timestamp.le b c = true) : Timestamp.le a c = true := by
  rw [Timestamp.le_iff] at h1 h2 ⊢
  omega

lemma Timestamp.minT_le_left (a b : Timestamp) : Timestamp.le (Timestamp.minT a b) a = true := by
  unfold Timestamp.minT
  split_ifs with h
  · exact Timestamp.le_of_lt h
  · exact Timestamp.le_rfl a

lemma Timestamp.le_maxT_left (a b : Timestamp) : Timestamp.le a (Timestamp.maxT a b) = true := by
  unfold Timestamp.maxT
  split_ifs with h
  · exact Timestamp.le_of_lt h
  · exact Timestamp.le_rfl a

lemma foldl_minT_le (ds : List Timestamp) (d : Timestamp) :
    Timestamp.le (ds.foldl Timestamp.minT d) d = true := by
  induction ds generalizing d with
  | nil => exact Timestamp.le_rfl d
  | cons a as ih =>
    rw [List.foldl_cons]
    exact Timestamp.le_trans (ih (Timestamp.minT d a)) (Timestamp.minT_le_left d a)

lemma le_foldl_maxT (ds : List Timestamp) (d : Timestamp) :
    Timestamp.le d (ds.foldl Timestamp.maxT d) = true := by
  induction ds generalizing d with
  | nil => exact Timestamp.le_rfl d
  | cons a as ih =>
    rw [List.foldl_cons]
    exact Timestamp.le_trans (Timestamp.le_maxT_left d a) (ih (Timestamp.maxT d a))

lemma thirtyDaysBefore_le (t : Timestamp) :
    Timestamp.le (thirtyDaysBefore t) t = true := by
  unfold thirtyDaysBefore
  rw [Timestamp.le_iff]
  dsimp only
  omega

/-! ## Claim about the default date-window initialization -/

/-- C1 (counterexample): the claim says the initial filter start is the later
of (the latest date in the data minus 30 days) and the earliest date in the
data.  With a single activity on day 0 and "today" on day 100, the code sets
the start to day 70 (it subtracts 30 days from *today*, not from the latest
data date), not to day 0 as the claim requires; the resulting window is empty
(start > end) and the start lies past the latest data date. -/
theorem c1_counterexample :
    initializeDateFilter [⟨0, 0⟩] ⟨100, 0⟩ = some (⟨70, 0⟩, ⟨0, 0⟩) ∧
    (⟨70, 0⟩ : Timestamp) ≠ ⟨0, 0⟩ ∧
    Timestamp.le ⟨70, 0⟩ ⟨0, 0⟩ = false := by
  refine ⟨?_, ?_, ?_⟩ <;> decide

/-- C1 (amended): for a non-empty dataset, the initial filter start is the
later of (today minus 30 days) and the earliest data date, and the end is the
earlier of today and the latest data date; provided the latest data date is
no older than today minus 30 days and the earliest data date is not in the
future, the window is non-empty and neither bound extends past the actual
data bounds. -/
theorem c1_default_window (d : Timestamp) (ds : List Timestamp) (today fs fe : Timestamp)
    (h : initializeDateFilter (d :: ds) today = some (fs, fe))
    (hmax : Timestamp.le (thirtyDaysBefore today) (ds.foldl Timestamp.maxT d) = true)
    (hmin : Timestamp.le (ds.foldl Timestamp.minT d) today = true) :
    (fs = thirtyDaysBefore today ∨ fs = ds.foldl Timestamp.minT d) ∧
    Timestamp.le (thirtyDaysBefore today) fs = true ∧
    Timestamp.le (ds.foldl Timestamp.minT d) fs = true ∧
    (fe = today ∨ fe = ds.foldl Timestamp.maxT d) ∧
    Timestamp.le fe today = true ∧
    Timestamp.le fe (ds.foldl Timestamp.maxT d) = true ∧
    Timestamp.le fs fe = true ∧
    Timestamp.le fs (ds.foldl Timestamp.maxT d) = true ∧
    Timestamp.le (ds.foldl Timestamp.minT d) fe = true := by
  unfold initializeDateFilter at h
  have hpair := Option.some.inj h
  have hfs : (if Timestamp.lt (ds.foldl Timestamp.minT d) (thirtyDaysBefore today) = true
      then thirtyDaysBefore today else ds.foldl Timestamp.minT d) = fs :=
    congrArg Prod.fst hpair
  have hfe : (if Timestamp.lt today (ds.foldl Timestamp.maxT d) = true
      then today else ds.foldl Timestamp.maxT d) = fe :=
    congrArg Prod.snd hpair
  have hminmax : Timestamp.le (ds.foldl Timestamp.minT d) (ds.foldl Timestamp.maxT d) = true :=
    Timestamp.le_trans (foldl_minT_le ds d) (le_foldl_maxT ds d)
  have ht30 : Timestamp.le (thirtyDaysBefore today) today = true := thirtyDaysBefore_le today
  have hfs' : (fs = thirtyDaysBefore today ∧
      Timestamp.le (ds.foldl Timestamp.minT d) fs = true) ∨
      (fs = ds.foldl Timestamp.minT d ∧
        Timestamp.le (thirtyDaysBefore today) fs = true) := by
    by_cases h1 : Timestamp.lt (ds.foldl Timestamp.minT d) (thirtyDaysBefore today) = true
    · rw [if_pos h1] at hfs
      exact Or.inl ⟨hfs.symm, hfs ▸ Timestamp.le_of_lt h1⟩
    · rw [if_neg h1] at hfs
      have h2 := (Timestamp.lt_eq_false_iff _ _).mp (Bool.eq_false_iff.mpr h1)
      exact Or.inr ⟨hfs.symm, hfs ▸ h2⟩
  have hfe' : (fe = today ∧ Timestamp.le fe (ds.foldl Timestamp.maxT d) = true) ∨
      (fe = ds.foldl Timestamp.maxT d ∧ Timestamp.le fe today = true) := by
    by_cases h1 : Timestamp.lt today (ds.foldl Timestamp.maxT d) = true
    · rw [if_pos h1] at hfe
      exact Or.inl ⟨hfe.symm, hfe ▸ Timestamp.le_of_lt h1⟩
    · rw [if_neg h1] at hfe
      have h2 := (Timestamp.lt_eq_false_iff _ _).mp (Bool.eq_false_iff.mpr h1)
      exact Or.inr ⟨hfe.symm, hfe ▸ h2⟩
  rcases hfs' with ⟨rfl, hs2⟩ | ⟨rfl, hs2⟩ <;> rcases hfe' with ⟨rfl, he2⟩ | ⟨rfl, he2⟩
  · exact ⟨Or.inl rfl, Timestamp.le_rfl _, hs2, Or.inl rfl, Timestamp.le_rfl _, he2,
      ht30, hmax, hmin⟩
  · exact ⟨Or.inl rfl, Timestamp.le_rfl _, hs2, Or.inr rfl, he2, Timestamp.le_rfl _,
      hmax, hmax, hminmax⟩
  · exact ⟨Or.inr rfl, hs2, Timestamp.le_rfl _, Or.inl rfl, Timestamp.le_rfl _, he2,
      hmin, hminmax, hmin⟩
  · exact ⟨Or.inr rfl, hs2, Timestamp.le_rfl _, Or.inr rfl, he2, Timestamp.le_rfl _,
      hminmax, hminmax, hminmax⟩

/-- C1 (witness): the amended window facts for a single activity on day 0
with "today" on day 10. -/
theorem c1_default_window_witness :
    ((⟨0, 0⟩ : Timestamp) = thirtyDaysBefore ⟨10, 0⟩ ∨
      (⟨0, 0⟩ : Timestamp) = ([] : List Timestamp).foldl Timestamp.minT ⟨0, 0⟩) ∧
    Timestamp.le (thirtyDaysBefore ⟨10, 0⟩) ⟨0, 0⟩ = true ∧
    Timestamp.le (([] : List Timestamp).foldl Timestamp.minT ⟨0, 0⟩) ⟨0, 0⟩ = true ∧
    ((⟨0, 0⟩ : Timestamp) = ⟨10, 0⟩ ∨
      (⟨0, 0⟩ : Timestamp) = ([] : List Timestamp).foldl Timestamp.maxT ⟨0, 0⟩) ∧
    Timestamp.le ⟨0, 0⟩ ⟨10, 0⟩ = true ∧
    Timestamp.le ⟨0, 0⟩ (([] : List Timestamp).foldl Timestamp.maxT ⟨0, 0⟩) = true ∧
    Timestamp.le ⟨0, 0⟩ ⟨0, 0⟩ = true ∧
    Timestamp.le ⟨0, 0⟩ (([] : List Timestamp).foldl Timestamp.maxT ⟨0, 0⟩) = true ∧
    Timestamp.le (([] : List Timestamp).foldl Timestamp.minT ⟨0, 0⟩) ⟨0, 0⟩ = true :=
  c1_default_window ⟨0, 0⟩ [] ⟨10, 0⟩ ⟨0, 0⟩ ⟨0, 0⟩ (by decide) (by decide) (by decide)

/-! ## Claim about the range filter -/

lemma keepActivity_iff (startBound endBound : Option Timestamp) (t : Timestamp) :
    keepActivity startBound endBound t = true ↔
      (∀ s, startBound = some s → Timestamp.le s t = true) ∧
      (∀ e, endBound = some e → Timestamp.le t e = true) := by
  unfold keepActivity
  cases startBound <;> cases endBound <;>
    simp [Bool.and_eq_true, Bool.not_eq_true', Timestamp.lt_eq_false_iff]

/-- C7: the range filter returns, for each kind, exactly the records whose
start instant (duration kinds) or occurrence instant (instant kinds) passes
the bound test, where passing means being at or after a present start bound
and at or before a present end bound, and a missing bound leaves that side
unconstrained; a kind with no matching records yields an empty list, and the
result is a pure function of the inputs. -/
theorem c7_filter_contract (acts : AllActivities) (startBound endBound : Option Timestamp) :
    ((getFilteredActivities acts startBound endBound).sleep =
        acts.sleep.filter (fun a => keepActivity startBound endBound a.start) ∧
      (getFilteredActivities acts startBound endBound).nursing =
        acts.nursing.filter (fun a => keepActivity startBound endBound a.start) ∧
      (getFilteredActivities acts startBound endBound).pumping =
        acts.pumping.filter (fun a => keepActivity startBound endBound a.start) ∧
      (getFilteredActivities acts startBound endBound).bottle =
        acts.bottle.filter (fun a => keepActivity startBound endBound a.time) ∧
      (getFilteredActivities acts startBound endBound).diaper =
        acts.diaper.filter (fun a => keepActivity startBound endBound a.time)) ∧
    (∀ t : Timestamp, keepActivity startBound endBound t = true ↔
      (∀ s, startBound = some s → Timestamp.le s t = true) ∧
      (∀ e, endBound = some e → Timestamp.le t e = true)) := by
  constructor
  · unfold getFilteredActivities
    split_ifs with h
    · obtain ⟨rfl, rfl⟩ := h
      have hkeep : ∀ t : Timestamp, keepActivity none none t = true := fun t => rfl
      exact ⟨(List.filter_eq_self.mpr (fun a _ => hkeep _)).symm,
        (List.filter_eq_self.mpr (fun a _ => hkeep _)).symm,
        (List.filter_eq_self.mpr (fun a _ => hkeep _)).symm,
        (List.filter_eq_self.mpr (fun a _ => hkeep _)).symm,
        (List.filter_eq_self.mpr (fun a _ => hkeep _)).symm⟩
    · exact ⟨rfl, rfl, rfl, rfl, rfl⟩
  · exact fun t => keepActivity_iff startBound endBound t

/-! ## Claim C4: the end-to-end overnight scenario -/

/-- C4: with exactly one sleep record starting at minute 1200 with duration
300 on a single date and no other activities, the distinct-day count is 1,
the sleep intensity array is 1 exactly on `[1200, 1440) ∪ [0, 60)` and 0
elsewhere, and the segmenter emits exactly the two segments `(0, 60, 1)` and
`(1200, 1440, 1)` in that order (the overnight run is split at the array
boundary). -/
theorem c4_overnight_scenario :
    (calculateAllHeatmaps overnightActs).totalDays = 1 ∧
    (calculateAllHeatmaps overnightActs).heatmaps Kind.sleep = some overnightSleepEntry ∧
    overnightSleepEntry.intensities =
      (List.range 1440).map
        (fun m => if (1200 ≤ m ∧ m < 1440) ∨ m < 60 then (1 : ℚ) else 0) ∧
    findIntensityRuns overnightSleepEntry.intensities defaultThreshold =
      [⟨0, 60, 1⟩, ⟨1200, 1440, 1⟩] := by
  have hcard : (allDaysOf overnightActs).card = 1 := by decide
  have hmd : ∀ m : Nat, (calculateDurationHeatmap [⟨⟨0, 1200⟩, 300⟩]).minuteDays m =
      if (1200 ≤ m ∧ m < 1440) ∨ m < 60 then ({0} : Finset Int) else ∅ := by
    intro m
    show markMinuteRange (fun _ => ∅) 1200 300 0 m = _
    simp only [markMinuteRange, MINUTES_PER_DAY]
    norm_num
  have hint : overnightSleepEntry.intensities =
      mkIntensities (calculateDurationHeatmap [⟨⟨0, 1200⟩, 300⟩]).minuteDays 1 := by
    show mkIntensities (calculateDurationHeatmap [⟨⟨0, 1200⟩, 300⟩]).minuteDays
      (allDaysOf overnightActs).card = _
    rw [hcard]
  have hintensity : overnightSleepEntry.intensities =
      (List.range 1440).map
        (fun m => if (1200 ≤ m ∧ m < 1440) ∨ m < 60 then (1 : ℚ) else 0) := by
    rw [hint]
    unfold mkIntensities MINUTES_PER_DAY
    apply List.map_congr_left
    intro m hm
    rw [hmd m, if_pos (by norm_num : (0 : Nat) < 1)]
    by_cases hc : (1200 ≤ m ∧ m < 1440) ∨ m < 60
    · rw [if_pos hc, if_pos hc]
      norm_num [mathMin]
    · rw [if_neg hc, if_neg hc]
      norm_num [mathMin]
  have hruns : findIntensityRuns
      ((List.range 1440).map (fun m => if (1200 ≤ m ∧ m < 1440) ∨ m < 60 then (1 : ℚ) else 0))
      defaultThreshold = [⟨0, 60, 1⟩, ⟨1200, 1440, 1⟩] := by
    unfold findIntensityRuns
    rw [if_neg (by simp)]
    simp only [List.length_map, List.length_range]
    rw [show (1440 - 1 : Nat) = 1439 from rfl]
    set f := fun m => ((List.range 1440).map
      (fun m => if (1200 ≤ m ∧ m < 1440) ∨ m < 60 then (1 : ℚ) else 0)).getD m 0 with hfdef
    have hfval : ∀ m : Nat, m < 1440 →
        f m = if (1200 ≤ m ∧ m < 1440) ∨ m < 60 then (1 : ℚ) else 0 := by
      intro m hm
      rw [hfdef]
      exact getD_map_range _ _ _ hm
    have hf0 : f 0 = 1 := by rw [hfval 0 (by norm_num)]; norm_num
    have hf60 : f 60 = 0 := by rw [hfval 60 (by norm_num)]; norm_num
    have hf1200 : f 1200 = 1 := by rw [hfval 1200 (by norm_num)]; norm_num
    rw [show ((List.range 1440).map
      (fun m => if (1200 ≤ m ∧ m < 1440) ∨ m < 60 then (1 : ℚ) else 0)).getD 0 0 = 1 from hf0]
    rw [show List.range' 1 1439 = List.range' 1 59 ++ List.range' 60 1380 from
      (List.range'_append_1 1 59 1380).symm, List.foldl_append]
    rw [foldl_runStep_const f defaultThreshold ([], 0, 1) (List.range' 1 59) (by
      intro m hm
      rw [List.mem_range'_1] at hm
      rw [hfval m (by omega), if_pos (by omega)]
      unfold defaultThreshold mathAbs
      norm_num)]
    rw [show List.range' 60 1380 = List.range' 60 1 ++ List.range' 61 1379 from
      (List.range'_append_1 60 1 1379).symm, List.foldl_append, List.range'_one,
      List.foldl_cons, List.foldl_nil]
    rw [show runStep f defaultThreshold ([], 0, 1) 60 = ([⟨0, 60, 1⟩], 60, 0) by
      unfold runStep
      rw [hf60]
      rw [if_pos (by unfold defaultThreshold mathAbs; norm_num), if_pos (by norm_num)]
      simp]
    rw [show List.range' 61 1379 = List.range' 61 1139 ++ List.range' 1200 240 from
      (List.range'_append_1 61 1139 240).symm, List.foldl_append]
    rw [foldl_runStep_const f defaultThreshold ([⟨0, 60, 1⟩], 60, 0) (List.range' 61 1139) (by
      intro m hm
      rw [List.mem_range'_1] at hm
      rw [hfval m (by omega), if_neg (by omega)]
      unfold defaultThreshold mathAbs
      norm_num)]
    rw [show List.range' 1200 240 = List.range' 1200 1 ++ List.range' 1201 239 from
      (List.range'_append_1 1200 1 239).symm, List.foldl_append, List.range'_one,
      List.foldl_cons, List.foldl_nil]
    rw [show runStep f defaultThreshold ([⟨0, 60, 1⟩], 60, 0) 1200 = ([⟨0, 60, 1⟩], 1200, 1) by
      unfold runStep
      rw [hf1200]
      rw [if_pos (by unfold defaultThreshold mathAbs; norm_num), if_neg (by norm_num)]]
    rw [foldl_runStep_const f defaultThreshold ([⟨0, 60, 1⟩], 1200, 1) (List.range' 1201 239) (by
      intro m hm
      rw [List.mem_range'_1] at hm
      rw [hfval m (by omega), if_pos (by omega)]
      unfold defaultThreshold mathAbs
      norm_num)]
    rw [if_pos (by norm_num : (0 : ℚ) < 1)]
    show ([⟨0, 60, 1⟩] ++ [⟨1200, MINUTES_PER_DAY, 1⟩] : List Run) =
      [⟨0, 60, 1⟩, ⟨1200, 1440, 1⟩]
    unfold MINUTES_PER_DAY
    rfl
  refine ⟨hcard, rfl, hintensity, ?_⟩
  rw [hintensity]
  exact hruns
